import Mathlib

/-!
Shallow embedding of the automata-simulator web client
(`src/features/simulator/utils.ts`, `schema.ts`, `constants.ts`,
`hooks/use-simulate.ts`, `config/api.ts`, `app/page.tsx`) together with
proofs settling the specification claims about it.

JavaScript runtime values are modelled by the inductive type `JsVal`
(numbers are modelled by `JNum`: integers plus `NaN`; non-integral
doubles do not occur in any claim-relevant computation).  Objects are
association lists with last-binding-wins lookup, matching object
literal semantics; `===` on composite values is modelled as `false`
(reference equality of separately produced values).  Property access
on `null`/`undefined` throws, which the embedding tracks in the
`Except` monad where the source performs unguarded accesses.
-/

set_option maxHeartbeats 1000000

namespace AutomataSim

/-- Model of a JavaScript number: an integer or NaN.  The client never
performs arithmetic that produces non-integral values on any path a
claim mentions, so doubles are modelled by their integral values. -/
inductive JNum where
  | int (z : Int)
  | nan
  deriving DecidableEq, Repr

/-- Model of a JavaScript runtime value (the `unknown` type in the
TypeScript source).  Objects are association lists of fields. -/
inductive JsVal where
  | vNull
  | vUndefined
  | vBool (b : Bool)
  | vNum (n : JNum)
  | vStr (s : String)
  | vArr (elems : List JsVal)
  | vObj (fields : List (String × JsVal))
  deriving Repr

namespace JsVal

/-- JS `value === null || value === undefined` (nullish test used by `??`). -/
def nullish : JsVal → Bool
  | vNull => true
  | vUndefined => true
  | _ => false

/-- JS `a ?? b`. -/
def coalesce (a b : JsVal) : JsVal := if a.nullish then b else a

/-- The source's `isRecord`: `typeof value === "object" && value !== null`.
Arrays are objects in JavaScript, so they satisfy `isRecord`. -/
def isRecord : JsVal → Bool
  | vObj _ => true
  | vArr _ => true
  | _ => false

/-- JS `Array.isArray`. -/
def isArr : JsVal → Bool
  | vArr _ => true
  | _ => false

/-- JS `typeof v === "number"`. -/
def typeofNumber : JsVal → Bool
  | vNum _ => true
  | _ => false

/-- JS `typeof v === "string"`. -/
def typeofString : JsVal → Bool
  | vStr _ => true
  | _ => false

/-- JS `typeof v === "boolean"`. -/
def typeofBoolean : JsVal → Bool
  | vBool _ => true
  | _ => false

/-- JS truthiness. -/
def truthy : JsVal → Bool
  | vNull => false
  | vUndefined => false
  | vBool b => b
  | vNum (.int z) => z != 0
  | vNum .nan => false
  | vStr s => s != ""
  | vArr _ => true
  | vObj _ => true

/-- JS `a || b`. -/
def jsOr (a b : JsVal) : JsVal := if a.truthy then a else b

/-- Last-binding-wins lookup in an object's field list (later duplicate
keys in a literal override earlier ones, and spread appends fields). -/
def objGet : List (String × JsVal) → String → Option JsVal
  | [], _ => none
  | (k, v) :: rest, key =>
    match objGet rest key with
    | some w => some w
    | none => if k = key then some v else none

/-- Total property access, used only where the source has established
that the receiver is not `null`/`undefined` (property access on other
primitives yields `undefined`; named properties of arrays are not
representable here and never arise from JSON data). -/
def getField : JsVal → String → JsVal
  | vObj fields, key => (objGet fields key).getD vUndefined
  | _, _ => vUndefined

/-- Property access that throws a `TypeError` on a `null`/`undefined`
receiver, as JavaScript does. -/
def getFieldE : JsVal → String → Except String JsVal
  | vNull, key => .error ("TypeError: cannot read properties of null (reading " ++ key ++ ")")
  | vUndefined, key => .error ("TypeError: cannot read properties of undefined (reading " ++ key ++ ")")
  | v, key => .ok (getField v key)

/-- JS `"key" in obj` (own/enumerable named keys; only object receivers
carry named keys in data produced by this client). -/
def hasKey : JsVal → String → Bool
  | vObj fields, key => fields.any (fun p => p.1 = key)
  | _, _ => false

/-- Fields contributed by object spread `{...v}`: objects contribute
their fields, arrays contribute index-keyed entries, primitives none. -/
def spreadFields : JsVal → List (String × JsVal)
  | vObj fields => fields
  | vArr elems => elems.enum.map (fun p => (toString p.1, p.2))
  | _ => []

/-- JS `===` restricted to the comparisons the client performs: on
primitives it is value equality (`NaN === NaN` is `false`); two
composite values produced independently are never reference-equal, so
the comparison is modelled as `false`. -/
def strictEq : JsVal → JsVal → Bool
  | vNull, vNull => true
  | vUndefined, vUndefined => true
  | vBool a, vBool b => a = b
  | vNum (.int a), vNum (.int b) => a = b
  | vStr a, vStr b => a = b
  | _, _ => false

end JsVal

namespace JNum

/-- JS `Math.max` on two numbers (`NaN` is absorbing). -/
def jmax : JNum → JNum → JNum
  | .int a, .int b => .int (max a b)
  | _, _ => .nan

/-- JS `n < m` against an integer bound (`NaN` compares false). -/
def ltI : JNum → Int → Bool
  | .int z, m => z < m
  | .nan, _ => false

/-- JS `n > m` against an integer bound (`NaN` compares false). -/
def gtI : JNum → Int → Bool
  | .int z, m => m < z
  | .nan, _ => false

/-- JS truthiness of a number (`0` and `NaN` are falsy). -/
def truthy : JNum → Bool
  | .int z => z != 0
  | .nan => false

/-- JS number-to-string conversion. -/
def toStr : JNum → String
  | .int z => toString z
  | .nan => "NaN"

end JNum

/-! ### String operations of the JavaScript runtime -/

/-- JS whitespace as recognized by `String.prototype.trim` (ASCII part;
the Unicode space characters never occur in the client's data). -/
def jsIsWhitespace (c : Char) : Bool :=
  c = ' ' || c = '\t' || c = '\n' || c = '\r' || c = '\x0B' || c = '\x0C'

/-- JS `String.prototype.trim`. -/
def jsTrim (s : String) : String :=
  ⟨(((s.data.dropWhile jsIsWhitespace).reverse).dropWhile jsIsWhitespace).reverse⟩

/-- JS `String.prototype.toUpperCase` (ASCII; the client's inputs on
the paths that uppercase are DNA/ASCII text). -/
def jsToUpper (s : String) : String :=
  ⟨s.data.map Char.toUpper⟩

/-- Left-to-right split of a character list at every line break
(`"\r\n"` or `"\n"`), the leftmost-match semantics of the regex
`/\r?\n/`. -/
def splitLinesRN : List Char → List (List Char)
  | [] => [[]]
  | '\r' :: '\n' :: rest => [] :: splitLinesRN rest
  | '\n' :: rest => [] :: splitLinesRN rest
  | c :: rest =>
    match splitLinesRN rest with
    | [] => [[c]]
    | h :: t => (c :: h) :: t

/-- JS `input.split(/\r?\n/)`. -/
def splitLineBreaks (s : String) : List String :=
  (splitLinesRN s.data).map (fun l => ⟨l⟩)

mutual

/-- JS `String(v)` conversion. -/
def jsToString : JsVal → String
  | .vNull => "null"
  | .vUndefined => "undefined"
  | .vBool b => if b then "true" else "false"
  | .vNum n => n.toStr
  | .vStr s => s
  | .vArr elems => arrJoinSep "," elems
  | .vObj _ => "[object Object]"

/-- JS `Array.prototype.join` with the given separator (`null` and
`undefined` elements stringify to the empty string). -/
def arrJoinSep : String → List JsVal → String
  | _, [] => ""
  | _, [x] => if x.nullish then "" else jsToString x
  | sep, x :: y :: rest =>
    (if x.nullish then "" else jsToString x) ++ sep ++ arrJoinSep sep (y :: rest)

end

/-- JS `Number(string)` conversion, restricted to integral numerals
(non-integral or exotic numeric syntax are collapsed to `NaN`; no such
string reaches a claim-relevant computation). -/
def strToNumber (s : String) : JNum :=
  let t := jsTrim s
  if t = "" then .int 0
  else
    let core := if t.startsWith "+" then t.drop 1 else t
    if t.startsWith "+" && (core.startsWith "+" || core.startsWith "-") then .nan
    else
      match core.toInt? with
      | some z => .int z
      | none => .nan

/-- JS `Number(v)` conversion. -/
def jsToNumber : JsVal → JNum
  | .vNull => .int 0
  | .vUndefined => .nan
  | .vBool b => .int (if b then 1 else 0)
  | .vNum n => n
  | .vStr s => strToNumber s
  | .vArr elems => strToNumber (arrJoinSep "," elems)
  | .vObj _ => .nan

/-! ### `constants.ts`: modes and keys -/

/-- `MODE_VALUES = ["nfa", "dfa", "efa", "pda"]` from `constants.ts`. -/
inductive Mode where
  | nfa
  | dfa
  | efa
  | pda
  deriving DecidableEq, Repr

/-- The backend `mode` string of a mode value. -/
def Mode.toStr : Mode → String
  | .nfa => "nfa"
  | .dfa => "dfa"
  | .efa => "efa"
  | .pda => "pda"

/-- `HISTORY_KEY` from `constants.ts`. -/
def HISTORY_KEY : String := "automata-visualizer-history"

/-- The IUPAC character class of `DNA_REGEX = /^[ACGTRYSWKMBDHVN]+$/`. -/
def iupacChars : List Char :=
  ['A', 'C', 'G', 'T', 'R', 'Y', 'S', 'W', 'K', 'M', 'B', 'D', 'H', 'V', 'N']

/-- `DNA_REGEX.test s`: one or more characters, all from the IUPAC class. -/
def dnaRegexTest (s : String) : Bool :=
  s ≠ "" && s.data.all (· ∈ iupacChars)

/-! ### `config/api.ts` -/

/-- `API_BASE_URL` from `config/api.ts`. -/
def API_BASE_URL : String := "http://127.0.0.1:5002"

/-- `SIMULATE_ENDPOINT` from `config/api.ts`. -/
def SIMULATE_ENDPOINT : String := "/simulate"

/-! ### Form values (`z.infer<typeof formSchema>` in `types.ts`) -/

/-- The form value record validated by `formSchema`. -/
structure FormValues where
  mode : Mode
  sequences : Option String
  inputPath : Option String
  pattern : Option String
  mismatchBudget : JNum
  allowDotBracket : Bool
  deriving DecidableEq, Repr

/-- Truthiness of `x?.trim()` for an optional string: true exactly when
the string is present and trims to a non-empty string. -/
def optTrimNonempty : Option String → Bool
  | none => false
  | some s => jsTrim s ≠ ""

/-! ### `utils.ts`: `getSequenceArray` and `buildPreviewPayload` -/

/-- `getSequenceArray` from `utils.ts`: split the textarea on `/\r?\n/`,
trim every line and keep the truthy (non-empty) ones. -/
def getSequenceArray : Option String → List String
  | none => []
  | some s => ((splitLineBreaks s).map jsTrim).filter (· ≠ "")

/-- Result of `buildPreviewPayload`: the request payload (a JS record,
in insertion order) and the parsed sequence list. -/
structure PreviewResult where
  payload : List (String × JsVal)
  sequences : List String
  deriving Repr

/-- Lookup of a payload key (JS record field access). -/
def paramGet (p : List (String × JsVal)) (key : String) : JsVal :=
  (JsVal.objGet p key).getD .vUndefined

/-- Presence of a payload key. -/
def paramHas (p : List (String × JsVal)) (key : String) : Bool :=
  (JsVal.objGet p key).isSome

/-- `buildPreviewPayload` from `utils.ts` (current version: `pattern`,
`input_path` and `sequences` are added only when non-empty, and
`sequences` is carried as an array). -/
def buildPreviewPayload (values : FormValues) : PreviewResult :=
  let sequences := getSequenceArray values.sequences
  let payload : List (String × JsVal) :=
    [("mode", .vStr values.mode.toStr),
     ("mismatch_budget", .vNum (if values.mode = .efa then values.mismatchBudget else .int 0)),
     ("allow_dot_bracket", .vBool (if values.mode = .pda then values.allowDotBracket else false))]
  let payload :=
    if optTrimNonempty values.pattern then
      payload ++ [("pattern", .vStr (jsTrim (values.pattern.getD "")))]
    else payload
  let payload :=
    if optTrimNonempty values.inputPath then
      payload ++ [("input_path", .vStr (jsTrim (values.inputPath.getD "")))]
    else payload
  let payload :=
    if sequences.length ≠ 0 then
      payload ++ [("sequences", .vArr (sequences.map .vStr))]
    else payload
  { payload, sequences }

/-! ### `schema.ts`: form validation -/

/-- A zod issue: the (single-segment) path it is attached to and its
message. -/
structure Issue where
  path : String
  message : String
  deriving DecidableEq, Repr

/-- Message of the missing-primary-input issue. -/
def providePrimaryMsg : String := "Provide at least one sequence or a file path."

/-- Message of the DNA-alphabet pattern issue. -/
def dnaPatternMsg : String := "DNA patterns must only use A, C, G, or T characters."

/-- Message of the sequence-alphabet issue. -/
def seqAlphabetMsg : String :=
  "Sequences must use uppercase DNA alphabet or IUPAC ambiguity codes."

/-- The test of `ALPHA_CHAR_REGEX.test(char) && !DNA_PATTERN_BASES.has(char)`
applied to every character of the uppercased pattern (`.find` produces an
issue exactly when some character passes the test). -/
def patternHasInvalidDnaChar (p : String) : Bool :=
  (jsToUpper p).data.any (fun c => ('A' ≤ c && c ≤ 'Z') && !(c ∈ ['A', 'C', 'G', 'T']))

/-- The sanitized sequences text of the last `superRefine` check:
uppercase, strip everything outside `A`–`Z`, trim. -/
def sanitizedSequences (s : String) : String :=
  jsTrim ⟨(jsToUpper s).data.filter (fun c => 'A' ≤ c && c ≤ 'Z')⟩

/-- The issues added by `formSchema.superRefine`, in source order. -/
def superRefineIssues (v : FormValues) : List Issue :=
  let requiresPrimaryInput := v.mode ≠ .pda || (v.mode = .pda && v.allowDotBracket)
  (if requiresPrimaryInput && !optTrimNonempty v.sequences && !optTrimNonempty v.inputPath then
    [⟨"sequences", providePrimaryMsg⟩, ⟨"inputPath", providePrimaryMsg⟩]
  else []) ++
  (if !optTrimNonempty v.pattern then [⟨"pattern", "Pattern required"⟩] else []) ++
  (let requiresDnaAlphabet := v.mode = .nfa || v.mode = .dfa || v.mode = .efa
   if requiresDnaAlphabet && optTrimNonempty v.pattern
       && patternHasInvalidDnaChar (v.pattern.getD "") then
     [⟨"pattern", dnaPatternMsg⟩]
   else []) ++
  (if v.mode ≠ .pda && optTrimNonempty v.sequences
      && (sanitizedSequences (v.sequences.getD "") ≠ ""
          && !dnaRegexTest (sanitizedSequences (v.sequences.getD ""))) then
    [⟨"sequences", seqAlphabetMsg⟩]
  else [])

/-- The issues of the base object schema (`mismatchBudget` is
`z.number().min(0).max(5)`; the other fields are type-correct by
construction). -/
def baseSchemaIssues (v : FormValues) : List Issue :=
  (if v.mismatchBudget.ltI 0 then
    [⟨"mismatchBudget", "Number must be greater than or equal to 0"⟩]
  else []) ++
  (if v.mismatchBudget.gtI 5 then
    [⟨"mismatchBudget", "Number must be less than or equal to 5"⟩]
  else [])

/-- Full validation of a (type-correct) form value: zod runs the base
checks (which can only mark the result dirty, never abort, for a
type-correct value) and then the `superRefine` refinement. -/
def formValidate (v : FormValues) : List Issue :=
  baseSchemaIssues v ++ superRefineIssues v

/-! ### `utils.ts`: `normalizeResponse` output shapes

The normalized shapes carry typed fields where the source constructs
the value with a definite type, and `JsVal` fields where the source
passes a raw value through unguarded. -/

/-- A normalized automaton edge, as constructed in the new-format
branch of `normalizeResponse`. -/
structure NormEdge where
  type : String
  «to» : JNum
  literal : Option String
  operation : Option String
  symbol : Option String
  code : Option JNum
  deriving DecidableEq, Repr

/-- A normalized automaton state: the spread raw fields plus the fields
the source sets explicitly (which shadow the spread ones). -/
structure NormState where
  src : List (String × JsVal)
  stackDepth : Option JNum
  edges : List NormEdge
  accept : Bool
  deriving Repr

/-- The normalized automaton: spread source fields, preserved PDA rules
and the normalized state list. -/
structure NormAutomaton where
  src : List (String × JsVal)
  rules : Option (List JsVal)
  states : List NormState
  deriving Repr

/-- A normalized per-sequence entry (absent optional fields are
`vUndefined`). -/
structure NormSeq where
  id : String
  sequence : JsVal
  accepted : JsVal
  mismatches : JsVal
  mismatchPositions : JsVal
  stackDepth : JsVal
  notes : JsVal
  matchRanges : JsVal
  coverage : JsVal
  statesVisited : JsVal
  deriving Repr

/-- A normalized trace entry. -/
structure TraceItem where
  step : JNum
  label : String
  deriving DecidableEq, Repr

/-- The normalized summary. -/
structure Summary where
  modeLabel : String
  runtimeMs : Option JNum
  sequenceCount : JsVal
  «matches» : JsVal
  mismatchBudget : JNum
  maxStackDepth : JsVal
  timestamp : String
  averageCoverage : JsVal
  totalStatesVisited : JsVal
  allAccepted : JsVal
  sequencesWithMatches : JsVal
  deriving Repr

/-- The `NormalizedResult` record. -/
structure NormalizedResult where
  summary : Summary
  sequences : List NormSeq
  traces : List TraceItem
  automaton : Option NormAutomaton
  raw : JsVal
  deriving Repr

/-! ### `utils.ts`: `normalizeResponse` -/

/-- `parseSequenceText` from `utils.ts`, parameterized by the ambient
`JSON.parse` (`none` models a parse exception, which the source
catches).  `JSON.parse` coerces its argument to a string first. -/
def parseSequenceText (jsonParse : String → Option JsVal) (text : JsVal) : JsVal :=
  match jsonParse (jsToString text) with
  | none => text
  | some parsed =>
    match parsed with
    | .vArr (x :: _) => if x.typeofString then x else text
    | _ => text

/-- The epsilon test of the new-format edge normalization. -/
def edgeIsEpsilon (edge : JsVal) : Bool :=
  (edge.getField "type").strictEq (.vStr "epsilon")
  || (edge.getField "transition_type").strictEq (.vStr "epsilon")
  || (edge.getField "label").strictEq (.vStr "ε")
  || (edge.getField "label").strictEq (.vStr "epsilon")
  || ((edge.getField "symbol").strictEq (.vStr "ε")
      && !(edge.getField "operation").strictEq (.vStr "push")
      && !(edge.getField "operation").strictEq (.vStr "pop"))
  || ((edge.getField "symbol").strictEq (.vStr "epsilon")
      && !(edge.getField "operation").strictEq (.vStr "push")
      && !(edge.getField "operation").strictEq (.vStr "pop"))

/-- Normalization of a single raw edge in the new-format branch. -/
def normalizeEdge (edge : JsVal) : NormEdge :=
  if edge.isRecord then
    let isEpsilon := edgeIsEpsilon edge
    { type := if isEpsilon then "epsilon" else "literal"
      «to» :=
        match edge.getField "to" with
        | .vNum n => n
        | _ =>
          match edge.getField "target" with
          | .vNum n => n
          | _ =>
            match edge.getField "dest" with
            | .vNum n => n
            | _ =>
              jsToNumber ((edge.getField "to").coalesce
                ((edge.getField "target").coalesce
                  ((edge.getField "dest").coalesce (.vNum (.int 0)))))
      literal :=
        if isEpsilon then none
        else some (jsToString ((edge.getField "literal").coalesce
          ((edge.getField "label").coalesce
            ((edge.getField "symbol").coalesce (.vStr "")))))
      operation := match edge.getField "operation" with | .vStr s => some s | _ => none
      symbol := match edge.getField "symbol" with | .vStr s => some s | _ => none
      code := match edge.getField "code" with | .vNum n => some n | _ => none }
  else
    { type := "literal", «to» := .int 0, literal := none
      operation := none, symbol := none, code := none }

/-- The raw edge source of a state:
`state.edges ?? state.transitions ?? state.outgoing ?? []`. -/
def stateEdgesSource (state : JsVal) : JsVal :=
  (state.getField "edges").coalesce
    ((state.getField "transitions").coalesce
      ((state.getField "outgoing").coalesce (.vArr [])))

/-- Normalization of a single raw state in the new-format branch.  The
first property access throws when the state is `null`/`undefined`. -/
def normalizeState (acceptVal : JsVal) (state : JsVal) : Except String NormState :=
  if state.nullish then
    .error "TypeError: cannot read properties of null/undefined (reading edges)"
  else
    .ok
      { src := state.spreadFields
        stackDepth := match state.getField "stackDepth" with | .vNum n => some n | _ => none
        edges :=
          match stateEdgesSource state with
          | .vArr rawEdges => rawEdges.map normalizeEdge
          | _ => []
        accept :=
          match state.getField "accept" with
          | .vBool b => b
          | _ => (state.getField "id").strictEq acceptVal }

/-- Normalization of a single raw sequence result in the new-format
branch.  The first property access (`seqResult.sequence_text`) throws
when the element is `null`/`undefined`. -/
def normalizeSeqResult (jsonParse : String → Option JsVal)
    (contextSequences : List String) (idx : Nat) (seqResult : JsVal) :
    Except String NormSeq :=
  if seqResult.nullish then
    .error "TypeError: cannot read properties of null/undefined (reading sequence_text)"
  else
    let sequenceText := parseSequenceText jsonParse (seqResult.getField "sequence_text")
    let ctxVal : JsVal :=
      match contextSequences.get? idx with
      | some s => .vStr s
      | none => .vUndefined
    let sequence :=
      (sequenceText.jsOr ctxVal).jsOr (.vStr ("Sequence " ++ toString (idx + 1)))
    .ok
      { id := jsToString (seqResult.getField "sequence_number")
        sequence
        accepted := seqResult.getField "has_matches"
        mismatches := .vUndefined
        mismatchPositions := .vUndefined
        stackDepth :=
          if (seqResult.getField "max_stack_depth").strictEq .vNull then .vUndefined
          else seqResult.getField "max_stack_depth"
        notes :=
          if (seqResult.getField "has_matches").truthy then
            .vStr (jsToString (seqResult.getField "match_count") ++ " match(es) found")
          else .vStr "No matches"
        matchRanges := seqResult.getField "match_ranges"
        coverage := seqResult.getField "coverage"
        statesVisited := seqResult.getField "states_visited" }

/-- `isRecord(rawData) ? rawData : {}`. -/
def dataOf (rawData : JsVal) : JsVal :=
  if rawData.isRecord then rawData else .vObj []

/-- The new-format test of `normalizeResponse`. -/
def isNewFormatB (rawData : JsVal) : Bool :=
  let data := dataOf rawData
  (data.getField "automaton").isRecord
  && (data.getField "sequences").isArr
  && (data.getField "all_accepted").typeofBoolean

/-- The merged automaton source: `{...rawAutomaton, ...rawAutomaton.nfa}`
when an EFA wraps an NFA, the raw automaton otherwise. -/
def automatonSourceOf (rawAutomaton : JsVal) : JsVal :=
  if (rawAutomaton.getField "nfa").isRecord then
    .vObj (rawAutomaton.spreadFields ++ (rawAutomaton.getField "nfa").spreadFields)
  else rawAutomaton

/-- The raw state list of the new-format branch. -/
def rawStatesOf (rawData : JsVal) : List JsVal :=
  match (automatonSourceOf ((dataOf rawData).getField "automaton")).getField "states" with
  | .vArr states => states
  | _ => []

/-- The raw sequence-result list of the new-format branch. -/
def rawSeqResultsOf (rawData : JsVal) : List JsVal :=
  match (dataOf rawData).getField "sequences" with
  | .vArr xs => xs
  | _ => []

/-- The accept-state value each state's `accept` fallback compares
against: `automatonSource.accept`. -/
def acceptValOf (rawData : JsVal) : JsVal :=
  (automatonSourceOf ((dataOf rawData).getField "automaton")).getField "accept"

/-- The new-format branch of `normalizeResponse`.  The automaton
(including the state map) is evaluated before the sequence map, as in
the source object-literal order; exceptions propagate accordingly. -/
def newFormatBranch (jsonParse : String → Option JsVal) (nowIso : String)
    (rawData : JsVal) (modeLabel : String) (contextSequences : List String)
    (mismatchBudget : JNum) (runtimeMs : Option JNum) :
    Except String NormalizedResult :=
  let data := dataOf rawData
  let rawAutomaton := data.getField "automaton"
  match (rawStatesOf rawData).mapM (normalizeState (acceptValOf rawData)) with
  | .error e => .error e
  | .ok states =>
    let automaton : NormAutomaton :=
      { src := (automatonSourceOf rawAutomaton).spreadFields
        rules :=
          match rawAutomaton.getField "rules" with
          | .vArr rules => some rules
          | _ => none
        states }
    match (rawSeqResultsOf rawData).enum.mapM
        (fun p => normalizeSeqResult jsonParse contextSequences p.1 p.2) with
    | .error e => .error e
    | .ok seqs =>
      let maxStackDepth :=
        let reduced := ((seqs.map (·.stackDepth)).filter (·.typeofNumber)).foldl
          (fun acc v =>
            match v with
            | .vNum n => acc.jmax n
            | _ => acc)
          (.int 0)
        if reduced.truthy then .vNum reduced else .vUndefined
      .ok
        { summary :=
            { modeLabel
              runtimeMs
              sequenceCount := data.getField "total_sequences"
              «matches» := data.getField "matches"
              mismatchBudget
              maxStackDepth
              timestamp := nowIso
              averageCoverage := data.getField "average_coverage"
              totalStatesVisited := data.getField "total_states_visited"
              allAccepted := data.getField "all_accepted"
              sequencesWithMatches := data.getField "sequences_with_matches" }
          sequences := seqs
          traces := []
          automaton := some automaton
          raw := rawData }

/-- The legacy sequence source:
`(Array.isArray(data.sequences) ? ... ) ?? (data.results ...) ?? (data.matches ...)`. -/
def legacySequencesSource (rawData : JsVal) : Option (List JsVal) :=
  let data := dataOf rawData
  match data.getField "sequences" with
  | .vArr xs => some xs
  | _ =>
    match data.getField "results" with
    | .vArr xs => some xs
    | _ =>
      match data.getField "matches" with
      | .vArr xs => some xs
      | _ => none

/-- The legacy trace source: `data.trace ?? data.steps ?? []`
(with each candidate filtered by `Array.isArray`). -/
def legacyTracesSource (rawData : JsVal) : List JsVal :=
  let data := dataOf rawData
  match data.getField "trace" with
  | .vArr xs => xs
  | _ =>
    match data.getField "steps" with
    | .vArr xs => xs
    | _ => []

/-- A pending legacy entry built from a context sequence. -/
def pendingSeq (idx : Nat) (sequence : JsVal) : NormSeq :=
  { id := toString (idx + 1)
    sequence
    accepted := .vUndefined
    mismatches := .vUndefined
    mismatchPositions := .vUndefined
    stackDepth := .vUndefined
    notes := .vUndefined
    matchRanges := .vUndefined
    coverage := .vUndefined
    statesVisited := .vUndefined }

/-- Normalization of one element of the legacy sequence source. -/
def legacySeqItem (contextSequences : List String) (idx : Nat) (item : JsVal) : NormSeq :=
  if item.typeofString then
    { pendingSeq idx item with id := toString (idx + 1), sequence := item }
  else if item.isRecord then
    let acceptedValue := item.getField "accepted"
    let fallbackAccepted :=
      (item.getField "is_match").coalesce
        (.vBool ((item.getField "status").strictEq (.vStr "accept")))
    { id := match item.getField "id" with | .vStr s => s | _ => toString (idx + 1)
      sequence :=
        match item.getField "sequence" with
        | .vStr s => .vStr s
        | _ => .vStr ((contextSequences.get? idx).getD "")
      accepted :=
        if acceptedValue.typeofBoolean then acceptedValue
        else if fallbackAccepted.typeofBoolean then fallbackAccepted
        else .vUndefined
      mismatches :=
        if (item.getField "mismatches").typeofNumber then item.getField "mismatches"
        else if (item.getField "mismatch_count").typeofNumber then item.getField "mismatch_count"
        else .vUndefined
      mismatchPositions :=
        if (item.getField "mismatch_positions").isArr then item.getField "mismatch_positions"
        else if (item.getField "differences").isArr then item.getField "differences"
        else .vUndefined
      stackDepth :=
        if (item.getField "max_stack_depth").typeofNumber then item.getField "max_stack_depth"
        else if (item.getField "stackDepth").typeofNumber then item.getField "stackDepth"
        else .vUndefined
      notes :=
        if (item.getField "note").typeofString then item.getField "note"
        else if (item.getField "explanation").typeofString then item.getField "explanation"
        else .vUndefined
      matchRanges := .vUndefined
      coverage := .vUndefined
      statesVisited := .vUndefined }
  else
    pendingSeq idx (.vStr ((contextSequences.get? idx).getD ""))

/-- Normalization of one element of the legacy trace source. -/
def legacyTraceItem (idx : Nat) (item : JsVal) : TraceItem :=
  if item.isRecord then
    { step :=
        match item.getField "step" with
        | .vNum n => n
        | _ => .int (Int.ofNat (idx + 1))
      label :=
        match item.getField "description" with
        | .vStr s => s
        | _ =>
          match item.getField "action" with
          | .vStr s => s
          | _ =>
            match item.getField "label" with
            | .vStr s => s
            | _ => "Executed step " ++ toString (idx + 1) }
  else
    { step := .int (Int.ofNat (idx + 1)), label := "Executed step " ++ toString (idx + 1) }

/-- The legacy sequence list of `normalizeResponse`. -/
def legacySequences (rawData : JsVal) (contextSequences : List String) : List NormSeq :=
  match legacySequencesSource rawData with
  | some src => src.enum.map (fun p => legacySeqItem contextSequences p.1 p.2)
  | none => contextSequences.enum.map (fun p => pendingSeq p.1 (.vStr p.2))

/-- The legacy (old-format) branch of `normalizeResponse`; every
property access in it is behind an `isRecord`/`typeof` guard, so it is
total. -/
def normalizeLegacy (nowIso : String) (rawData : JsVal) (modeLabel : String)
    (contextSequences : List String) (mismatchBudget : JNum)
    (runtimeMs : Option JNum) : NormalizedResult :=
  let data := dataOf rawData
  let sequences := legacySequences rawData contextSequences
  let matchCount := (sequences.filter (fun seq => seq.accepted.truthy)).length
  let traces := (legacyTracesSource rawData).enum.map (fun p => legacyTraceItem p.1 p.2)
  let stackDepthCandidates :=
    (sequences.map (·.stackDepth)).filter (·.typeofNumber) |>.filterMap
      (fun v => match v with | .vNum n => some n | _ => none)
  let statsStackDepth : JsVal :=
    if (data.getField "stats").isRecord
        && ((data.getField "stats").getField "max_stack_depth").typeofNumber then
      (data.getField "stats").getField "max_stack_depth"
    else .vUndefined
  let maxStackDepth :=
    statsStackDepth.coalesce
      (match stackDepthCandidates with
       | [] => .vUndefined
       | c :: cs => .vNum (cs.foldl JNum.jmax c))
  { summary :=
      { modeLabel
        runtimeMs
        sequenceCount := .vNum (.int (Int.ofNat sequences.length))
        «matches» := .vNum (.int (Int.ofNat matchCount))
        mismatchBudget
        maxStackDepth
        timestamp := nowIso
        averageCoverage := .vUndefined
        totalStatesVisited := .vUndefined
        allAccepted := .vUndefined
        sequencesWithMatches := .vUndefined }
    sequences
    traces
    automaton := none
    raw := rawData }

/-- `normalizeResponse` from `utils.ts`, parameterized by the ambient
`JSON.parse` and the timestamp `new Date().toISOString()` produces. -/
def normalizeResponse (jsonParse : String → Option JsVal) (nowIso : String)
    (rawData : JsVal) (modeLabel : String) (contextSequences : List String)
    (mismatchBudget : JNum) (runtimeMs : Option JNum) :
    Except String NormalizedResult :=
  if isNewFormatB rawData then
    newFormatBranch jsonParse nowIso rawData modeLabel contextSequences
      mismatchBudget runtimeMs
  else
    .ok (normalizeLegacy nowIso rawData modeLabel contextSequences
      mismatchBudget runtimeMs)

/-! ### HTTP requests (`config/api.ts`, `use-simulate.ts`, `page.tsx`) -/

/-- An HTTP request as issued through the axios client. -/
structure HttpRequest where
  method : String
  baseURL : String
  path : String
  params : List (String × JsVal)
  deriving Repr

/-- The request built by the `mutationFn` in `page.tsx`:
`apiClient.get(SIMULATE_ENDPOINT, { params, signal })`. -/
def pageSimulateRequest (params : List (String × JsVal)) : HttpRequest :=
  { method := "GET", baseURL := API_BASE_URL, path := SIMULATE_ENDPOINT, params }

/-- The request built by the `mutationFn` in `use-simulate.ts`
(identical endpoint and method; it only adds a params serializer). -/
def useSimulateRequest (params : List (String × JsVal)) : HttpRequest :=
  { method := "GET", baseURL := API_BASE_URL, path := SIMULATE_ENDPOINT, params }

/-- The request `onSubmit` in `page.tsx` dispatches for a form value:
the assembled preview payload is passed as the query params. -/
def onSubmitRequest (values : FormValues) : HttpRequest :=
  pageSimulateRequest (buildPreviewPayload values).payload

/-! ### History (`useRecentSimulations` and `page.tsx`) -/

/-- A stored history entry (`SimulationHistoryItem`). -/
structure HistoryItem where
  id : String
  timestamp : Int
  summary : Summary
  params : List (String × JsVal)
  mode : Mode
  deriving Repr

/-- The state owned by `useRecentSimulations`: the in-memory list and
the serialized copy under `localStorage[HISTORY_KEY]`
(`none` models an absent key). -/
structure HistoryState where
  history : List HistoryItem
  storage : Option String
  deriving Repr

/-- `pushHistory` from `useRecentSimulations`, parameterized by the
ambient `JSON.stringify`: prepend the item, keep the first five, and
write exactly that list's serialization to `localStorage`. -/
def pushHistory (stringify : List HistoryItem → String) (item : HistoryItem)
    (s : HistoryState) : HistoryState :=
  let next := (item :: s.history).take 5
  { history := next, storage := some (stringify next) }

/-! ### Page state and the submit handlers (`page.tsx`) -/

/-- The component state of `HomePage` that the submit callbacks touch. -/
structure PageState where
  result : Option NormalizedResult
  networkError : Option String
  activeController : Option Nat
  historyState : HistoryState
  deriving Repr

/-- The `onSuccess` callback of `onSubmit` in `page.tsx`: store the
normalized result, push a history entry carrying the freshly built id,
the timestamp, the normalized summary, the request params and the mode,
then clear the active controller.  `newId` and `now` model `buildId()`
and `Date.now()`. -/
def onSubmitSuccess (stringify : List HistoryItem → String) (newId : String)
    (now : Int) (values : FormValues) (normalized : NormalizedResult)
    (s : PageState) : PageState :=
  { s with
    result := some normalized
    historyState :=
      pushHistory stringify
        { id := newId
          timestamp := now
          summary := normalized.summary
          params := (buildPreviewPayload values).payload
          mode := values.mode }
        s.historyState
    activeController := none }

/-- The classified error the `onError` callback can receive. -/
inductive ReqError where
  | cancelled
  | axiosNetwork
  | axiosOther (responseData : JsVal) (message : Option String)
  | jsError (message : String)
  | other
  deriving Repr

/-- Fallback error message. -/
def simulationFailedMsg : String := "Simulation failed. Review your inputs."

/-- The `onError` callback of `onSubmit` in `page.tsx`.  Note the
cancellation branch returns before `setActiveController(null)` runs. -/
def onSubmitError (e : ReqError) (s : PageState) : PageState :=
  match e with
  | .cancelled => { s with networkError := some "Request cancelled." }
  | .axiosNetwork =>
    { s with
      networkError :=
        some ("Unable to reach the backend. Verify the server is running on " ++ API_BASE_URL)
      activeController := none }
  | .axiosOther responseData message =>
    { s with
      networkError :=
        some
          (if responseData.isRecord && responseData.hasKey "message" then
            jsToString (responseData.getField "message")
          else message.getD simulationFailedMsg)
      activeController := none }
  | .jsError message =>
    { s with
      networkError := some (if message ≠ "" then message else simulationFailedMsg)
      activeController := none }
  | .other =>
    { s with networkError := some simulationFailedMsg, activeController := none }

/-! ### `handleHistoryLoad` (`page.tsx`) -/

/-- `handleHistoryLoad` from `page.tsx`, parameterized by the ambient
`JSON.parse`.  The `sequences` branch fires only on a *string* params
entry: it parses it as JSON and joins the array with newlines, and any
exception (parse failure, or `.join` on a non-array) resets the
textarea to the empty string. -/
def handleHistoryLoad (jsonParse : String → Option JsVal) (item : HistoryItem)
    (form : FormValues) : FormValues :=
  let f := { form with mode := item.mode }
  let f :=
    match paramGet item.params "pattern" with
    | .vStr s => { f with pattern := some s }
    | _ => f
  let f :=
    match paramGet item.params "input_path" with
    | .vStr s => { f with inputPath := some s }
    | _ => f
  let f :=
    match paramGet item.params "sequences" with
    | .vStr s =>
      match jsonParse s with
      | some (.vArr xs) => { f with sequences := some (arrJoinSep "\n" xs) }
      | _ => { f with sequences := some "" }
    | _ => f
  let f :=
    match paramGet item.params "allow_dot_bracket" with
    | .vBool b => { f with allowDotBracket := b }
    | _ => f
  let f :=
    match paramGet item.params "mismatch_budget" with
    | .vNum n => { f with mismatchBudget := n }
    | _ => f
  f

/-! ## Theorems -/

/-- C4: every simulation request — whether built by the `page.tsx`
mutation, by the `use-simulate.ts` mutation, or dispatched by
`onSubmit` — is an HTTP GET to the path `"/simulate"` on the base URL
`"http://127.0.0.1:5002"`, carrying the assembled payload as its query
parameters; these are the only request constructions in the client. -/
theorem simulate_request_endpoint (params : List (String × JsVal)) (values : FormValues) :
    (pageSimulateRequest params).method = "GET"
    ∧ (pageSimulateRequest params).baseURL = "http://127.0.0.1:5002"
    ∧ (pageSimulateRequest params).path = "/simulate"
    ∧ (pageSimulateRequest params).params = params
    ∧ (useSimulateRequest params).method = "GET"
    ∧ (useSimulateRequest params).baseURL = "http://127.0.0.1:5002"
    ∧ (useSimulateRequest params).path = "/simulate"
    ∧ (useSimulateRequest params).params = params
    ∧ onSubmitRequest values = pageSimulateRequest (buildPreviewPayload values).payload
    ∧ API_BASE_URL = "http://127.0.0.1:5002"
    ∧ SIMULATE_ENDPOINT = "/simulate" :=
  ⟨rfl, rfl, rfl, rfl, rfl, rfl, rfl, rfl, rfl, rfl, rfl⟩

/-- C5: after a successful simulation the history entry (fresh id,
timestamp, normalized summary, request params, submitted mode) is
prepended; the resulting list is the five newest entries in
newest-first order, and the stored serialization equals exactly the
serialization of the current list. -/
theorem push_history_invariants (stringify : List HistoryItem → String)
    (newId : String) (now : Int) (values : FormValues)
    (normalized : NormalizedResult) (s : PageState) :
    (onSubmitSuccess stringify newId now values normalized s).historyState.history
      = (HistoryItem.mk newId now normalized.summary
          (buildPreviewPayload values).payload values.mode :: s.historyState.history).take 5
    ∧ (onSubmitSuccess stringify newId now values normalized s).historyState.history.head?
      = some (HistoryItem.mk newId now normalized.summary
          (buildPreviewPayload values).payload values.mode)
    ∧ (onSubmitSuccess stringify newId now values normalized s).historyState.history.length ≤ 5
    ∧ (onSubmitSuccess stringify newId now values normalized s).historyState.storage
      = some (stringify
          (onSubmitSuccess stringify newId now values normalized s).historyState.history)
    ∧ (onSubmitSuccess stringify newId now values normalized s).result = some normalized := by
  refine ⟨rfl, ?_, ?_, rfl, rfl⟩
  · simp [onSubmitSuccess, pushHistory]
  · simp [onSubmitSuccess, pushHistory]

/-- C1: for every schema-valid form value, the preview payload carries
the selected mode, the mismatch budget exactly in `efa` mode (else 0),
the dot-bracket toggle exactly in `pda` mode (else `false`), the
trimmed pattern exactly when it trims non-empty, the trimmed input
path exactly when it trims non-empty, and the sequence list — the
trimmed non-blank lines in original order — exactly when it is
non-empty. -/
theorem buildPreviewPayload_correct (values : FormValues)
    (_hv : formValidate values = []) :
    paramGet (buildPreviewPayload values).payload "mode" = .vStr values.mode.toStr
    ∧ paramGet (buildPreviewPayload values).payload "mismatch_budget"
      = .vNum (if values.mode = .efa then values.mismatchBudget else .int 0)
    ∧ paramGet (buildPreviewPayload values).payload "allow_dot_bracket"
      = .vBool (if values.mode = .pda then values.allowDotBracket else false)
    ∧ (paramHas (buildPreviewPayload values).payload "pattern" = true
        ↔ optTrimNonempty values.pattern = true)
    ∧ (optTrimNonempty values.pattern = true
        → paramGet (buildPreviewPayload values).payload "pattern"
          = .vStr (jsTrim (values.pattern.getD "")))
    ∧ (paramHas (buildPreviewPayload values).payload "input_path" = true
        ↔ optTrimNonempty values.inputPath = true)
    ∧ (optTrimNonempty values.inputPath = true
        → paramGet (buildPreviewPayload values).payload "input_path"
          = .vStr (jsTrim (values.inputPath.getD "")))
    ∧ (paramHas (buildPreviewPayload values).payload "sequences" = true
        ↔ getSequenceArray values.sequences ≠ [])
    ∧ (getSequenceArray values.sequences ≠ []
        → paramGet (buildPreviewPayload values).payload "sequences"
          = .vArr ((getSequenceArray values.sequences).map .vStr))
    ∧ getSequenceArray values.sequences
      = ((splitLineBreaks (values.sequences.getD "")).map jsTrim).filter (· ≠ "") := by
  have hlast : getSequenceArray values.sequences
      = ((splitLineBreaks (values.sequences.getD "")).map jsTrim).filter (· ≠ "") := by
    cases values.sequences <;> rfl
  refine ⟨?_, ?_, ?_, ?_, ?_, ?_, ?_, ?_, ?_, hlast⟩
    <;> by_cases hp : optTrimNonempty values.pattern
    <;> by_cases hi : optTrimNonempty values.inputPath
    <;> by_cases hs : (getSequenceArray values.sequences).length ≠ 0
    <;> simp only [List.length_eq_zero, ne_eq, not_not] at hs
    <;> simp [buildPreviewPayload, paramGet, paramHas, JsVal.objGet, hp, hi, hs,
          List.length_eq_zero]

/-- Witness form value for the payload theorem: a schema-valid `nfa`
submission with a file path and no sequences text. -/
def witnessFormC1 : FormValues :=
  { mode := .nfa
    sequences := none
    inputPath := some "/tmp/data.fa"
    pattern := some "ACG"
    mismatchBudget := .int 0
    allowDotBracket := false }

/-- Witness for C1: the payload theorem applied to a concrete
schema-valid form value. -/
theorem buildPreviewPayload_correct_witness :
    paramGet (buildPreviewPayload witnessFormC1).payload "mode" = .vStr "nfa"
    ∧ paramGet (buildPreviewPayload witnessFormC1).payload "mismatch_budget"
      = .vNum (.int 0) :=
  ⟨((buildPreviewPayload_correct witnessFormC1 (by decide)).1.trans rfl),
   (((buildPreviewPayload_correct witnessFormC1 (by decide)).2.1).trans (by rfl))⟩

/-- Membership in a conditional singleton-or-empty issue list. -/
theorem mem_ite_issue_list {c : Prop} [Decidable c] (a : Issue) (l : List Issue) :
    (a ∈ if c then l else []) ↔ c ∧ a ∈ l := by
  split <;> simp_all

/-- A PDA submission with the dot-bracket toggle off and both primary
inputs blank: the guard `requiresPrimaryInput` is false, so the
missing-primary-input issue is skipped. -/
def pdaFormC2 : FormValues :=
  { mode := .pda
    sequences := some ""
    inputPath := some " "
    pattern := some "(..)"
    mismatchBudget := .int 0
    allowDotBracket := false }

/-- Counterexample to C2 as stated: a submission whose sequences text
and input path are both blank, which nevertheless does not receive the
missing-primary-input issue on either field. -/
theorem formValidate_primary_counterexample :
    optTrimNonempty pdaFormC2.sequences = false
    ∧ optTrimNonempty pdaFormC2.inputPath = false
    ∧ Issue.mk "sequences" providePrimaryMsg ∉ formValidate pdaFormC2
    ∧ Issue.mk "inputPath" providePrimaryMsg ∉ formValidate pdaFormC2 := by
  refine ⟨rfl, rfl, ?_, ?_⟩ <;> decide

/-- C2 (amended): validation attaches the missing-primary-input issue
to both the sequences and inputPath fields exactly for submissions
whose mode requires a primary input (every mode except `pda` with the
dot-bracket toggle off) and whose sequences text and input path are
both empty or whitespace-only; whenever at least one of the two is
provided the issue is raised on neither field. -/
theorem formValidate_primary_input (v : FormValues) :
    ((v.mode ≠ .pda ∨ v.allowDotBracket = true)
      → optTrimNonempty v.sequences = false
      → optTrimNonempty v.inputPath = false
      → Issue.mk "sequences" providePrimaryMsg ∈ formValidate v
        ∧ Issue.mk "inputPath" providePrimaryMsg ∈ formValidate v)
    ∧ ((optTrimNonempty v.sequences = true ∨ optTrimNonempty v.inputPath = true)
      → Issue.mk "sequences" providePrimaryMsg ∉ formValidate v
        ∧ Issue.mk "inputPath" providePrimaryMsg ∉ formValidate v) := by
  obtain ⟨mode, seqs, ipath, pat, mb, adb⟩ := v
  constructor
  · intro hmode hs hi
    cases mode <;> cases adb
      <;> simp_all [formValidate, superRefineIssues, baseSchemaIssues,
            mem_ite_issue_list, providePrimaryMsg, dnaPatternMsg, seqAlphabetMsg]
  · intro hone
    cases mode
      <;> simp_all [formValidate, superRefineIssues, baseSchemaIssues,
            mem_ite_issue_list, providePrimaryMsg, dnaPatternMsg, seqAlphabetMsg]
      <;> rcases hone with h | h <;> simp [h]

/-- An `nfa` submission with no primary input. -/
def nfaEmptyForm : FormValues :=
  { mode := .nfa
    sequences := some ""
    inputPath := none
    pattern := some "ACG"
    mismatchBudget := .int 0
    allowDotBracket := false }

/-- An `nfa` submission with a sequences text. -/
def nfaSeqForm : FormValues :=
  { nfaEmptyForm with sequences := some "ACG" }

/-- Witness for the amended C2: both directions at concrete
submissions. -/
theorem formValidate_primary_input_witness :
    Issue.mk "sequences" providePrimaryMsg ∈ formValidate nfaEmptyForm
    ∧ Issue.mk "sequences" providePrimaryMsg ∉ formValidate nfaSeqForm :=
  ⟨((formValidate_primary_input nfaEmptyForm).1 (Or.inl (by decide))
      (by decide) (by decide)).1,
   ((formValidate_primary_input nfaSeqForm).2 (Or.inl (by decide))).1⟩

/-- The characters of a literal character-list string. -/
theorem strData_mk (l : List Char) : (⟨l⟩ : String).data = l := rfl

/-- A string that JS-trims to empty consists of whitespace only. -/
theorem jsTrim_empty_ws {s : String} (h : jsTrim s = "") :
    ∀ c ∈ s.data, jsIsWhitespace c = true := by
  intro c hc
  have hl : (((s.data.dropWhile jsIsWhitespace).reverse).dropWhile
      jsIsWhitespace).reverse = [] := by
    simpa [jsTrim, strData_mk] using congrArg String.data h
  have h2 : ((s.data.dropWhile jsIsWhitespace).reverse).dropWhile jsIsWhitespace
      = [] := by
    rwa [List.reverse_eq_nil_iff] at hl
  have h4 : ∀ x ∈ s.data.dropWhile jsIsWhitespace, jsIsWhitespace x = true := by
    rw [List.dropWhile_eq_nil_iff] at h2
    exact fun x hx => h2 x (List.mem_reverse.mpr hx)
  have hc2 : c ∈ s.data.takeWhile jsIsWhitespace ++ s.data.dropWhile jsIsWhitespace := by
    rwa [List.takeWhile_append_dropWhile]
  rcases List.mem_append.mp hc2 with h5 | h5
  · exact List.mem_takeWhile_imp h5
  · exact h4 c h5

/-- Uppercasing a whitespace character never lands in `A`–`Z`. -/
theorem ws_toUpper_not_alpha {c : Char} (h : jsIsWhitespace c = true) :
    ('A' ≤ c.toUpper && c.toUpper ≤ 'Z') = false := by
  have hc : ((((c = ' ' ∨ c = '\t') ∨ c = '\n') ∨ c = '\r') ∨ c = '\x0B') ∨ c = '\x0C' := by
    simpa only [jsIsWhitespace, Bool.or_eq_true, decide_eq_true_eq] using h
  rcases hc with ((((rfl | rfl) | rfl) | rfl) | rfl) | rfl <;> decide

/-- A pattern with an invalid alphabetic character cannot be
whitespace-only. -/
theorem patternInvalid_trim_ne {p : String} (h : patternHasInvalidDnaChar p = true) :
    jsTrim p ≠ "" := by
  intro he
  have hws := jsTrim_empty_ws he
  simp only [patternHasInvalidDnaChar, jsToUpper, strData_mk, List.any_eq_true,
    List.mem_map] at h
  obtain ⟨c, ⟨a, ha, rfl⟩, hcp⟩ := h
  rw [ws_toUpper_not_alpha (hws a ha)] at hcp
  simp at hcp

/-- C7: validation raises `"Pattern required"` on the pattern field iff
the pattern is absent or trims to the empty string; and in the DNA
modes (`nfa`, `dfa`, `efa`) a non-empty pattern receives the
DNA-alphabet issue iff its uppercasing contains an `A`–`Z` character
outside `{A, C, G, T}`. -/
theorem formValidate_pattern_issues (v : FormValues) :
    (Issue.mk "pattern" "Pattern required" ∈ formValidate v
      ↔ optTrimNonempty v.pattern = false)
    ∧ (∀ p, v.pattern = some p → p ≠ ""
        → (v.mode = .nfa ∨ v.mode = .dfa ∨ v.mode = .efa)
        → (Issue.mk "pattern" dnaPatternMsg ∈ formValidate v
            ↔ patternHasInvalidDnaChar p = true)) := by
  obtain ⟨mode, seqs, ipath, pat, mb, adb⟩ := v
  constructor
  · by_cases hp : optTrimNonempty pat
      <;> simp_all [formValidate, superRefineIssues, baseSchemaIssues,
            mem_ite_issue_list, providePrimaryMsg, dnaPatternMsg, seqAlphabetMsg]
  · rintro p rfl hne hmode
    constructor
    · intro hmem
      simp_all [formValidate, superRefineIssues, baseSchemaIssues,
        mem_ite_issue_list, providePrimaryMsg, dnaPatternMsg, seqAlphabetMsg]
    · intro hinv
      have htrim : optTrimNonempty (some p) = true := by
        simp [optTrimNonempty, patternInvalid_trim_ne hinv]
      rcases hmode with rfl | rfl | rfl
        <;> simp_all [formValidate, superRefineIssues, baseSchemaIssues,
              mem_ite_issue_list, providePrimaryMsg, dnaPatternMsg, seqAlphabetMsg]

/-- Witness for C7: the pattern-issue characterization applied to a
blank-pattern submission and an invalid-character pattern. -/
theorem formValidate_pattern_issues_witness :
    (Issue.mk "pattern" "Pattern required"
      ∈ formValidate { nfaSeqForm with pattern := some " " })
    ∧ (Issue.mk "pattern" dnaPatternMsg
      ∈ formValidate { nfaSeqForm with pattern := some "AXG" }) :=
  ⟨(formValidate_pattern_issues _).1.mpr (by decide),
   ((formValidate_pattern_issues _).2 "AXG" rfl (by decide)
      (Or.inl rfl)).mpr (by decide)⟩

/-- A page state with an in-flight controller and empty history. -/
def errStateC10 : PageState :=
  { result := none
    networkError := none
    activeController := some 1
    historyState := { history := [], storage := none } }

/-- Counterexample to C10 as stated: on a cancellation the error
handler sets the message but returns before clearing the active
controller, so the controller is left in place. -/
theorem onSubmitError_cancel_counterexample :
    (onSubmitError .cancelled errStateC10).networkError = some "Request cancelled."
    ∧ (onSubmitError .cancelled errStateC10).activeController = some 1
    ∧ (onSubmitError .cancelled errStateC10).activeController ≠ none := by
  refine ⟨rfl, rfl, ?_⟩
  simp [onSubmitError, errStateC10]

/-- C10 (amended): the error handler never touches the stored result
or the history; it sets exactly the cancellation message on
cancellations (leaving the active controller as it was, since that
branch returns early) and the unable-to-reach-backend message naming
the base URL on network errors, and clears the active controller for
every non-cancellation error. -/
theorem onSubmitError_state_effects (e : ReqError) (s : PageState) :
    (onSubmitError e s).result = s.result
    ∧ (onSubmitError e s).historyState = s.historyState
    ∧ (e = .cancelled
        → (onSubmitError e s).networkError = some "Request cancelled."
          ∧ (onSubmitError e s).activeController = s.activeController)
    ∧ (onSubmitError .axiosNetwork s).networkError
      = some ("Unable to reach the backend. Verify the server is running on "
          ++ API_BASE_URL)
    ∧ (e ≠ .cancelled → (onSubmitError e s).activeController = none) := by
  cases e <;> simp [onSubmitError]

/-- Witness for the amended C10 at concrete errors and state. -/
theorem onSubmitError_state_effects_witness :
    (onSubmitError .cancelled errStateC10).networkError = some "Request cancelled."
    ∧ (onSubmitError .axiosNetwork errStateC10).activeController = none :=
  ⟨((onSubmitError_state_effects .cancelled errStateC10).2.2.1 rfl).1,
   (onSubmitError_state_effects .axiosNetwork errStateC10).2.2.2.2
     (fun h => ReqError.noConfusion h)⟩

/-- A schema-valid `nfa` submission carrying two sequences. -/
def valsC6 : FormValues :=
  { mode := .nfa
    sequences := some "ACGTT\nACTT"
    inputPath := some ""
    pattern := some "ACG"
    mismatchBudget := .int 0
    allowDotBracket := false }

/-- The summary stored with the C6 history entry (its contents are
irrelevant to `handleHistoryLoad`). -/
def summaryC6 : Summary :=
  { modeLabel := "Exact NFA"
    runtimeMs := none
    sequenceCount := .vNum (.int 2)
    «matches» := .vNum (.int 0)
    mismatchBudget := .int 0
    maxStackDepth := .vUndefined
    timestamp := "2024-01-01T00:00:00.000Z"
    averageCoverage := .vUndefined
    totalStatesVisited := .vUndefined
    allAccepted := .vUndefined
    sequencesWithMatches := .vUndefined }

/-- The history entry produced by submitting `valsC6`. -/
def itemC6 : HistoryItem :=
  { id := "e1"
    timestamp := 0
    summary := summaryC6
    params := (buildPreviewPayload valsC6).payload
    mode := valsC6.mode }

/-- The form state before the history entry is loaded. -/
def formC6 : FormValues :=
  { mode := .dfa
    sequences := some ""
    inputPath := some ""
    pattern := some ""
    mismatchBudget := .int 0
    allowDotBracket := false }

/-- C6 (evaluated at the failing input): submitting `valsC6` is
schema-valid and stores the sequence list `["ACGTT", "ACTT"]` as an
array in the history entry's params, yet loading that entry leaves the
sequences textarea unchanged (the restore branch requires a JSON
*string*, the format the older `buildPreviewPayload` produced), while
mode, pattern and the toggles are restored. -/
theorem handleHistoryLoad_sequences_bug :
    formValidate valsC6 = []
    ∧ paramGet itemC6.params "sequences" = .vArr [.vStr "ACGTT", .vStr "ACTT"]
    ∧ (∀ jsonParse, (handleHistoryLoad jsonParse itemC6 formC6).sequences = some "")
    ∧ (∀ jsonParse, (handleHistoryLoad jsonParse itemC6 formC6).sequences
        ≠ some "ACGTT\nACTT")
    ∧ (∀ jsonParse, (handleHistoryLoad jsonParse itemC6 formC6).pattern = some "ACG")
    ∧ (∀ jsonParse, (handleHistoryLoad jsonParse itemC6 formC6).mode = .nfa)
    ∧ (∀ jsonParse, (handleHistoryLoad jsonParse itemC6 formC6).mismatchBudget = .int 0)
    ∧ (∀ jsonParse, (handleHistoryLoad jsonParse itemC6 formC6).allowDotBracket = false) := by
  refine ⟨by decide, rfl, fun _ => rfl, fun jp h => ?_, fun _ => rfl,
    fun _ => rfl, fun _ => rfl, fun _ => rfl⟩
  have hs : (handleHistoryLoad jp itemC6 formC6).sequences = some "" := rfl
  rw [hs] at h
  exact absurd (Option.some.inj h) (by decide)

/-- A value passing the `typeof "boolean"` guard is one of the two
booleans. -/
theorem typeofBoolean_cases {v : JsVal} (h : v.typeofBoolean = true) :
    v = .vBool true ∨ v = .vBool false := by
  cases v <;> simp_all [JsVal.typeofBoolean]

/-- Booleans pass the `typeof "boolean"` guard. -/
theorem typeofBoolean_vBool (b : Bool) : (JsVal.vBool b).typeofBoolean = true := rfl

/-- The accepted flag of a legacy-normalized sequence is a boolean or
`undefined`. -/
theorem legacySeqItem_accepted_shape (ctx : List String) (idx : Nat) (item : JsVal) :
    (legacySeqItem ctx idx item).accepted = .vBool true
    ∨ (legacySeqItem ctx idx item).accepted = .vBool false
    ∨ (legacySeqItem ctx idx item).accepted = .vUndefined := by
  unfold legacySeqItem
  by_cases h1 : item.typeofString
  · simp [h1, pendingSeq]
  · by_cases h2 : item.isRecord
    · by_cases h3 : (item.getField "accepted").typeofBoolean
      · rcases typeofBoolean_cases h3 with h4 | h4
          <;> simp [h1, h2, h3, h4, typeofBoolean_vBool]
      · by_cases h5 : ((item.getField "is_match").coalesce
            (.vBool ((item.getField "status").strictEq (.vStr "accept")))).typeofBoolean
        · rcases typeofBoolean_cases h5 with h6 | h6
            <;> simp [h1, h2, h3, h5, h6, typeofBoolean_vBool]
        · simp [h1, h2, h3, h5]
    · simp [h1, h2, pendingSeq]

/-- Membership in the legacy sequence list forces the boolean-or-
undefined accepted shape. -/
theorem legacySequences_accepted_shape (rawData : JsVal) (ctx : List String) :
    ∀ s ∈ legacySequences rawData ctx,
      s.accepted = .vBool true ∨ s.accepted = .vBool false ∨ s.accepted = .vUndefined := by
  intro s hs
  unfold legacySequences at hs
  rcases hsrc : legacySequencesSource rawData with _ | src
  · rw [hsrc] at hs
    obtain ⟨p, _, rfl⟩ := List.mem_map.mp hs
    simp [pendingSeq]
  · rw [hsrc] at hs
    obtain ⟨p, _, rfl⟩ := List.mem_map.mp hs
    exact legacySeqItem_accepted_shape ctx p.1 p.2

/-- For a boolean-or-undefined accepted value, JS truthiness coincides
with strict equality to `true`. -/
theorem accepted_truthy_iff {v : JsVal}
    (h : v = .vBool true ∨ v = .vBool false ∨ v = .vUndefined) :
    v.truthy = v.strictEq (.vBool true) := by
  rcases h with rfl | rfl | rfl <;> rfl

/-- C8: in the legacy path of `normalizeResponse`, `summary.matches`
counts exactly the normalized sequences whose accepted flag is `true`,
`summary.sequenceCount` is the length of the normalized sequence list,
and a trace item whose raw record carries no numeric `step` gets its
1-based position as step. -/
theorem normalizeLegacy_summary (jsonParse : String → Option JsVal)
    (nowIso : String) (rawData : JsVal) (modeLabel : String)
    (ctx : List String) (mb : JNum) (rt : Option JNum)
    (h : isNewFormatB rawData = false) :
    normalizeResponse jsonParse nowIso rawData modeLabel ctx mb rt
      = .ok (normalizeLegacy nowIso rawData modeLabel ctx mb rt)
    ∧ (normalizeLegacy nowIso rawData modeLabel ctx mb rt).summary.«matches»
      = .vNum (.int (Int.ofNat
          (((normalizeLegacy nowIso rawData modeLabel ctx mb rt).sequences.filter
            (fun s => s.accepted.strictEq (.vBool true))).length)))
    ∧ (normalizeLegacy nowIso rawData modeLabel ctx mb rt).summary.sequenceCount
      = .vNum (.int (Int.ofNat
          (normalizeLegacy nowIso rawData modeLabel ctx mb rt).sequences.length))
    ∧ (∀ i item, (legacyTracesSource rawData)[i]? = some item
        → (item.getField "step").typeofNumber = false
        → (((normalizeLegacy nowIso rawData modeLabel ctx mb rt).traces)[i]?).map
            TraceItem.step = some (.int (Int.ofNat (i + 1)))) := by
  refine ⟨by simp [normalizeResponse, h], ?_, rfl, ?_⟩
  · have hcong : (legacySequences rawData ctx).filter (fun s => s.accepted.truthy)
        = (legacySequences rawData ctx).filter
            (fun s => s.accepted.strictEq (.vBool true)) := by
      apply List.filter_congr
      intro s hs
      exact accepted_truthy_iff (legacySequences_accepted_shape rawData ctx s hs)
    simp only [normalizeLegacy, hcong]
  · intro i item hitem hstep
    have htr : ((normalizeLegacy nowIso rawData modeLabel ctx mb rt).traces)[i]?
        = some (legacyTraceItem i item) := by
      simp [normalizeLegacy, List.getElem?_map, List.getElem?_enum, hitem]
    rw [htr]
    have hstep2 : (legacyTraceItem i item).step = .int (Int.ofNat (i + 1)) := by
      unfold legacyTraceItem
      by_cases hrec : item.isRecord
      · simp only [hrec, if_true]
        cases hv : item.getField "step" <;> simp_all [JsVal.typeofNumber]
      · simp [hrec]
    simp [hstep2]

/-- Binding a successful `Except` computation. -/
theorem exceptBind_ok {α β : Type} (b : α) (k : α → Except String β) :
    (Except.ok b >>= k) = k b := rfl

/-- Binding a failed `Except` computation. -/
theorem exceptBind_error {α β : Type} (e : String) (k : α → Except String β) :
    ((Except.error e : Except String α) >>= k) = .error e := rfl

/-- Every element of a successful `mapM` image comes from a successful
application on some source element. -/
theorem mapM_ok_mem {α β : Type} {f : α → Except String β} :
    ∀ {l : List α} {out : List β}, l.mapM f = .ok out
      → ∀ y ∈ out, ∃ x ∈ l, f x = .ok y := by
  intro l
  induction l with
  | nil =>
    intro out h y hy
    simp only [List.mapM_nil] at h
    cases h
    simp at hy
  | cons a as ih =>
    intro out h y hy
    rw [List.mapM_cons] at h
    cases hfa : f a with
    | error e => rw [hfa, exceptBind_error] at h; cases h
    | ok b =>
      rw [hfa, exceptBind_ok] at h
      cases hrest : as.mapM f with
      | error e => rw [hrest, exceptBind_error] at h; cases h
      | ok bs =>
        rw [hrest, exceptBind_ok] at h
        cases h
        rcases List.mem_cons.mp hy with rfl | hy2
        · exact ⟨a, List.mem_cons_self a as, hfa⟩
        · obtain ⟨x, hx, hfx⟩ := ih hrest y hy2
          exact ⟨x, List.mem_cons_of_mem a hx, hfx⟩

/-- A `mapM` over elements on which `f` succeeds succeeds. -/
theorem mapM_ok_of_ok {α β : Type} {f : α → Except String β} :
    ∀ {l : List α}, (∀ x ∈ l, ∃ y, f x = .ok y)
      → ∃ out, l.mapM f = .ok out := by
  intro l
  induction l with
  | nil => intro _; exact ⟨[], rfl⟩
  | cons a as ih =>
    intro h
    obtain ⟨b, hb⟩ := h a (List.mem_cons_self a as)
    obtain ⟨bs, hbs⟩ := ih (fun x hx => h x (List.mem_cons_of_mem a hx))
    refine ⟨b :: bs, ?_⟩
    rw [List.mapM_cons, hb, exceptBind_ok, hbs, exceptBind_ok]
    rfl

/-- The raw edge list a state contributes: the contents of the first
array among `edges`/`transitions`/`outgoing`, and empty otherwise. -/
def edgesListOf (s : JsVal) : List JsVal :=
  match stateEdgesSource s with
  | .vArr l => l
  | _ => []

/-- Inversion of a successful new-format normalization: both inner
maps succeeded, the automaton states are the state-map image and the
sequences are the sequence-map image. -/
theorem newFormatBranch_ok_inv {jp : String → Option JsVal} {nowIso : String}
    {rawData : JsVal} {modeLabel : String} {ctx : List String} {mb : JNum}
    {rt : Option JNum} {r : NormalizedResult}
    (h : newFormatBranch jp nowIso rawData modeLabel ctx mb rt = .ok r) :
    ∃ states seqs,
      (rawStatesOf rawData).mapM (normalizeState (acceptValOf rawData)) = .ok states
      ∧ (rawSeqResultsOf rawData).enum.mapM
          (fun p => normalizeSeqResult jp ctx p.1 p.2) = .ok seqs
      ∧ r.sequences = seqs
      ∧ ∃ a, r.automaton = some a ∧ a.states = states := by
  unfold newFormatBranch at h
  cases hst : (rawStatesOf rawData).mapM (normalizeState (acceptValOf rawData)) with
  | error e => rw [hst] at h; simp at h
  | ok states =>
    rw [hst] at h
    cases hsq : (rawSeqResultsOf rawData).enum.mapM
        (fun p => normalizeSeqResult jp ctx p.1 p.2) with
    | error e => rw [hsq] at h; simp at h
    | ok seqs =>
      rw [hsq] at h
      simp only [Except.ok.injEq] at h
      exact ⟨states, seqs, rfl, rfl, by rw [← h], ⟨_, by rw [← h], rfl⟩⟩

/-- Inversion of a successful state normalization. -/
theorem normalizeState_ok_inv {acc s : JsVal} {st : NormState}
    (h : normalizeState acc s = .ok st) :
    st.edges = (edgesListOf s).map normalizeEdge
    ∧ (∀ b, s.getField "accept" = .vBool b → st.accept = b)
    ∧ ((s.getField "accept").typeofBoolean = false
        → st.accept = ((s.getField "id").strictEq acc)) := by
  unfold normalizeState at h
  by_cases hn : s.nullish
  · simp [hn] at h
  · simp only [hn, Bool.false_eq_true, if_false, Except.ok.injEq] at h
    subst h
    refine ⟨?_, ?_, ?_⟩
    · cases hse : stateEdgesSource s <;> simp [edgesListOf, hse]
    · intro b hb; simp [hb]
    · intro hb
      cases hv : s.getField "accept" <;> simp_all [JsVal.typeofBoolean]

/-- C9: in a successfully normalized response every automaton state is
the image of a raw state under `normalizeState`; every normalized
state's edge list is the `normalizeEdge` image of the raw edge arrays
(so it is empty when no array is listed under `edges`, `transitions`
or `outgoing`), its accept flag is the raw boolean when one is present
and otherwise the strict equality of the state id with the automaton's
accept state; and every normalized edge has type `"epsilon"` or
`"literal"`, a numeric `to`, no literal when epsilon, and a string
literal when built from a record-shaped raw edge classified literal. -/
theorem normalized_automaton_invariants (jp : String → Option JsVal)
    (nowIso : String) (rawData : JsVal) (modeLabel : String)
    (ctx : List String) (mb : JNum) (rt : Option JNum) (r : NormalizedResult)
    (hok : normalizeResponse jp nowIso rawData modeLabel ctx mb rt = .ok r) :
    (∀ a, r.automaton = some a → ∀ st ∈ a.states,
      ∃ rawState ∈ rawStatesOf rawData,
        normalizeState (acceptValOf rawData) rawState = .ok st)
    ∧ (∀ acc s st, normalizeState acc s = .ok st →
        st.edges = (edgesListOf s).map normalizeEdge
        ∧ (∀ b, s.getField "accept" = .vBool b → st.accept = b)
        ∧ ((s.getField "accept").typeofBoolean = false
            → st.accept = ((s.getField "id").strictEq acc)))
    ∧ (∀ e, (normalizeEdge e).type = "epsilon" ∨ (normalizeEdge e).type = "literal")
    ∧ (∀ e, (normalizeEdge e).type = "epsilon" → (normalizeEdge e).literal = none)
    ∧ (∀ e, e.isRecord = true → (normalizeEdge e).type = "literal"
        → ∃ litStr, (normalizeEdge e).literal = some litStr)
    ∧ (∀ e, ∃ n : JNum, (normalizeEdge e).«to» = n) := by
  refine ⟨?_, fun acc s st h => normalizeState_ok_inv h, ?_, ?_, ?_, fun e => ⟨_, rfl⟩⟩
  · intro a ha st hst
    by_cases hfmt : isNewFormatB rawData
    · rw [normalizeResponse, if_pos hfmt] at hok
      obtain ⟨states, seqs, hsts, hseqs, hrs, a2, ha2, hsa⟩ := newFormatBranch_ok_inv hok
      rw [ha] at ha2
      cases ha2
      rw [hsa] at hst
      exact mapM_ok_mem hsts st hst
    · rw [normalizeResponse, if_neg hfmt] at hok
      cases hok
      simp [normalizeLegacy] at ha
  · intro e
    unfold normalizeEdge
    by_cases hrec : e.isRecord
    · by_cases heps : edgeIsEpsilon e <;> simp [hrec, heps]
    · simp [hrec]
  · intro e htype
    unfold normalizeEdge at htype ⊢
    by_cases hrec : e.isRecord
    · by_cases heps : edgeIsEpsilon e <;> simp_all
    · simp_all
  · intro e hrec htype
    unfold normalizeEdge at htype ⊢
    by_cases heps : edgeIsEpsilon e <;> simp_all

/-- A trivial ambient `JSON.parse` used for concrete instantiations
(every parse fails, as for non-JSON sequence text). -/
def jp0 : String → Option JsVal := fun _ => none

/-- A concrete new-format response: one state with one literal edge,
no sequence results. -/
def rawC9 : JsVal :=
  .vObj [("automaton",
           .vObj [("states",
                    .vArr [.vObj [("id", .vNum (.int 0)),
                                  ("edges",
                                    .vArr [.vObj [("to", .vNum (.int 1)),
                                                  ("label", .vStr "A")]])]]),
                  ("accept", .vNum (.int 0))]),
         ("sequences", .vArr []),
         ("all_accepted", .vBool true)]

/-- The normalization of `rawC9` (total: the fallback branch of the
match is never taken). -/
def resultC9 : NormalizedResult :=
  match normalizeResponse jp0 "T" rawC9 "M" [] (.int 0) none with
  | .ok r => r
  | .error _ => normalizeLegacy "T" .vNull "M" [] (.int 0) none

/-- Witness for C9: the invariants theorem applied at the concrete
new-format response `rawC9`, discharging the success hypothesis and
the record-edge hypotheses there. -/
theorem normalized_automaton_invariants_witness :
    ∃ litStr, (normalizeEdge (.vObj [("to", .vNum (.int 1)),
        ("label", .vStr "A")])).literal = some litStr :=
  (normalized_automaton_invariants jp0 "T" rawC9 "M" [] (.int 0) none resultC9
      rfl).2.2.2.2.1
    (.vObj [("to", .vNum (.int 1)), ("label", .vStr "A")]) rfl rfl

/-- State normalization succeeds on any non-nullish state. -/
theorem normalizeState_ok_of_notNullish (acc : JsVal) {s : JsVal}
    (h : s.nullish = false) : ∃ st, normalizeState acc s = .ok st := by
  unfold normalizeState
  simp only [h, Bool.false_eq_true, if_false]
  exact ⟨_, rfl⟩

/-- Sequence-result normalization succeeds on any non-nullish element. -/
theorem normalizeSeqResult_ok_of_notNullish (jp : String → Option JsVal)
    (ctx : List String) (idx : Nat) {x : JsVal} (h : x.nullish = false) :
    ∃ ns, normalizeSeqResult jp ctx idx x = .ok ns := by
  unfold normalizeSeqResult
  simp only [h, Bool.false_eq_true, if_false]
  exact ⟨_, rfl⟩

/-- When no array sits under `sequences`, the new-format test fails. -/
theorem noSeqSource_notNewFormat {rawData : JsVal}
    (h : legacySequencesSource rawData = none) : isNewFormatB rawData = false := by
  unfold legacySequencesSource at h
  unfold isNewFormatB
  cases hs : (dataOf rawData).getField "sequences"
    <;> simp_all [JsVal.isArr]

/-- C3 (amended): `normalizeResponse` embeds totally — every
non-new-format value takes the legacy branch and yields a result; a
new-format value yields a result whenever its state and sequence
arrays carry no `null`/`undefined` element (otherwise the branch
throws, see the counterexample); when no recognizable sequence array
is present it yields one pending entry per context sequence; and a
non-record raw value yields empty traces and a summary over the
context sequences. -/
theorem normalizeResponse_totality (jp : String → Option JsVal)
    (nowIso : String) (rawData : JsVal) (modeLabel : String)
    (ctx : List String) (mb : JNum) (rt : Option JNum) :
    (isNewFormatB rawData = false
      → normalizeResponse jp nowIso rawData modeLabel ctx mb rt
        = .ok (normalizeLegacy nowIso rawData modeLabel ctx mb rt))
    ∧ (isNewFormatB rawData = true
      → (∀ x ∈ rawStatesOf rawData, x.nullish = false)
      → (∀ x ∈ rawSeqResultsOf rawData, x.nullish = false)
      → ∃ r, normalizeResponse jp nowIso rawData modeLabel ctx mb rt = .ok r)
    ∧ (legacySequencesSource rawData = none
      → ∃ r, normalizeResponse jp nowIso rawData modeLabel ctx mb rt = .ok r
          ∧ r.sequences = ctx.enum.map (fun p => pendingSeq p.1 (.vStr p.2))
          ∧ ∀ s ∈ r.sequences, s.accepted = .vUndefined)
    ∧ (rawData.isRecord = false
      → ∃ r, normalizeResponse jp nowIso rawData modeLabel ctx mb rt = .ok r
          ∧ r.traces = []
          ∧ r.sequences = ctx.enum.map (fun p => pendingSeq p.1 (.vStr p.2))
          ∧ r.summary.sequenceCount = .vNum (.int (Int.ofNat ctx.length))) := by
  have hlegacy : ∀ h : isNewFormatB rawData = false,
      normalizeResponse jp nowIso rawData modeLabel ctx mb rt
        = .ok (normalizeLegacy nowIso rawData modeLabel ctx mb rt) := by
    intro h
    simp [normalizeResponse, h]
  refine ⟨hlegacy, ?_, ?_, ?_⟩
  · intro hfmt hstates hseqs
    rw [normalizeResponse, if_pos hfmt]
    unfold newFormatBranch
    obtain ⟨sts, hsts⟩ := mapM_ok_of_ok
      (f := normalizeState (acceptValOf rawData)) (l := rawStatesOf rawData)
      (fun x hx => normalizeState_ok_of_notNullish _ (hstates x hx))
    obtain ⟨sqs, hsqs⟩ := mapM_ok_of_ok
      (f := fun p => normalizeSeqResult jp ctx p.1 p.2)
      (l := (rawSeqResultsOf rawData).enum)
      (fun p hp => by
        have hp2 : p.2 ∈ rawSeqResultsOf rawData := by
          have := List.mem_enum_iff_get?.mp hp
          exact List.get?_mem this
        exact normalizeSeqResult_ok_of_notNullish jp ctx p.1 (hseqs p.2 hp2))
    rw [hsts, hsqs]
    exact ⟨_, rfl⟩
  · intro hsrc
    refine ⟨normalizeLegacy nowIso rawData modeLabel ctx mb rt,
      hlegacy (noSeqSource_notNewFormat hsrc), ?_, ?_⟩
    · simp [normalizeLegacy, legacySequences, hsrc]
    · intro s hs
      simp only [normalizeLegacy, legacySequences, hsrc] at hs
      obtain ⟨p, _, rfl⟩ := List.mem_map.mp hs
      rfl
  · intro hrec
    have hsrc : legacySequencesSource rawData = none := by
      simp [legacySequencesSource, dataOf, hrec, JsVal.getField, JsVal.objGet]
    have htrs : legacyTracesSource rawData = [] := by
      simp [legacyTracesSource, dataOf, hrec, JsVal.getField, JsVal.objGet]
    refine ⟨normalizeLegacy nowIso rawData modeLabel ctx mb rt,
      hlegacy (noSeqSource_notNewFormat hsrc), ?_, ?_, ?_⟩
    · simp [normalizeLegacy, htrs]
    · simp [normalizeLegacy, legacySequences, hsrc]
    · simp [normalizeLegacy, legacySequences, hsrc, List.enum_length]

/-- The raw value on which the claimed totality fails: a new-format
response whose sequence array contains `null`. -/
def rawC3bad : JsVal :=
  .vObj [("automaton", .vObj []),
         ("sequences", .vArr [.vNull]),
         ("all_accepted", .vBool true)]

/-- Counterexample to C3 as stated: `normalizeResponse` throws a
`TypeError` on a new-format response whose sequence array contains a
`null` element. -/
theorem normalizeResponse_throws_counterexample :
    normalizeResponse jp0 "T" rawC3bad "M" [] (.int 0) none
      = .error "TypeError: cannot read properties of null/undefined (reading sequence_text)" :=
  rfl

/-- Witness for the amended C3: the totality theorem instantiated at a
non-record raw value and at a null-free new-format value. -/
theorem normalizeResponse_totality_witness :
    (∃ r, normalizeResponse jp0 "T" .vNull "M" ["AC"] (.int 0) none = .ok r
      ∧ r.traces = []
      ∧ r.sequences = (["AC"] : List String).enum.map
          (fun p => pendingSeq p.1 (.vStr p.2))
      ∧ r.summary.sequenceCount = .vNum (.int (Int.ofNat 1)))
    ∧ (∃ r, normalizeResponse jp0 "T" rawC9 "M" [] (.int 0) none = .ok r) :=
  ⟨(normalizeResponse_totality jp0 "T" .vNull "M" ["AC"] (.int 0) none).2.2.2 rfl,
   (normalizeResponse_totality jp0 "T" rawC9 "M" [] (.int 0) none).2.1 rfl
     (by decide) (by decide)⟩

/-- A concrete legacy response: one accepted record, one bare string,
one step-less trace record. -/
def rawC8 : JsVal :=
  .vObj [("results", .vArr [.vObj [("accepted", .vBool true)], .vStr "ACGT"]),
         ("trace", .vArr [.vObj []])]

/-- Witness for C8: the legacy summary theorem applied at a concrete
legacy response, discharging the format and trace hypotheses there. -/
theorem normalizeLegacy_summary_witness :
    (normalizeLegacy "T" rawC8 "M" [] (.int 0) none).summary.«matches»
      = .vNum (.int (Int.ofNat
          (((normalizeLegacy "T" rawC8 "M" [] (.int 0) none).sequences.filter
            (fun s => s.accepted.strictEq (.vBool true))).length)))
    ∧ (((normalizeLegacy "T" rawC8 "M" [] (.int 0) none).traces)[0]?).map
        TraceItem.step = some (.int (Int.ofNat 1)) :=
  ⟨(normalizeLegacy_summary jp0 "T" rawC8 "M" [] (.int 0) none rfl).2.1,
   (normalizeLegacy_summary jp0 "T" rawC8 "M" [] (.int 0) none rfl).2.2.2
     0 (.vObj []) rfl rfl⟩

end AutomataSim
